import Mathlib

/-!
Verification of the rimmods downloader (src/main.rs): a shallow embedding of
its manifest loader, steamcmd login handshake, per-item download protocol,
readiness poller and placement pipeline, together with theorems settling the
behavioural claims about it.

Strings from the Rust side are modelled as `List Char`; the integer ids
(Rust `i64`) as `Int`.
-/

namespace RimMods

/-- Decimal digit to character, as produced by Rust's `format!("{}", id)`. -/
def digitToChar : Nat → Char
  | 0 => '0' | 1 => '1' | 2 => '2' | 3 => '3' | 4 => '4'
  | 5 => '5' | 6 => '6' | 7 => '7' | 8 => '8' | _ => '9'

/-- Fuelled decimal rendering of a natural number (most significant digit first). -/
def natCharsAux : Nat → Nat → List Char
  | 0, _ => []
  | f + 1, n => if n < 10 then [digitToChar n] else natCharsAux f (n / 10) ++ [digitToChar (n % 10)]

/-- Decimal rendering of a natural number. -/
def natChars (n : Nat) : List Char := natCharsAux (n + 1) n

/-- Decimal rendering of an `i64` value, mirroring Rust's `Display` for integers. -/
def intChars : Int → List Char
  | Int.ofNat n => natChars n
  | Int.negSucc n => '-' :: natChars (n + 1)

/-- Boolean prefix test on character lists, mirroring Rust's `str::starts_with`. -/
def startsWith : List Char → List Char → Bool
  | [], _ => true
  | _ :: _, [] => false
  | a :: p, b :: s => a == b && startsWith p s

/-- `line.replace('\n', "")` from the source: drop every newline character. -/
def stripNl (l : List Char) : List Char := l.filter (fun c => c != '\n')

/-- The success marker prefix `format!("Success. Downloaded item {} to", id)`. -/
def succPrefixOf (id : Int) : List Char :=
  "Success. Downloaded item ".data ++ intChars id ++ " to".data

/-- The failure marker prefix `format!("ERROR! Download item {} failed", id)`. -/
def errPrefixOf (id : Int) : List Char :=
  "ERROR! Download item ".data ++ intChars id ++ " failed".data

/-- What the download read loop does with one (already newline-stripped) line. -/
inductive DlStep where
  | succeeded
  | failed
  | kept
deriving DecidableEq

/-- Classification of a line inside `steamcmd_download`'s read loop: the success
check runs first, then the failure check, otherwise the line is ignored. -/
def dl_step (id : Int) (line : List Char) : DlStep :=
  if startsWith (succPrefixOf id) line then DlStep.succeeded
  else if startsWith (errPrefixOf id) line then DlStep.failed
  else DlStep.kept

/-- The `bail!("Error downloading mod {} ({})", name, id)` message. -/
def dlErrMsg (name : List Char) (id : Int) : List Char :=
  "Error downloading mod ".data ++ name ++ " (".data ++ intChars id ++ ")".data

/-- The read loop of `steamcmd_download`, applied to the stream of lines the
subprocess will produce. `none` means the loop is still reading when the given
lines run out (at end-of-stream `read_line` keeps returning empty lines, which
never match, so the loop never exits on its own). -/
def steamcmd_download (name : List Char) (id : Int) : List (List Char) → Option (Except (List Char) Unit)
  | [] => none
  | l :: ls =>
    match dl_step id (stripNl l) with
    | DlStep.succeeded => some (Except.ok ())
    | DlStep.failed => some (Except.error (dlErrMsg name id))
    | DlStep.kept => steamcmd_download name id ls

/-- The exact line the login loop waits for. -/
def loginMarker : List Char := "Waiting for user info...OK".data

/-- One read from the subprocess stdout: either a full line or an I/O failure. -/
inductive ReadEvent where
  | line (s : List Char)
  | ioErr

/-- Outcome of the login loop. `diverges` models the loop never terminating. -/
inductive LoginOutcome where
  | loggedIn
  | fatalErr
  | diverges
deriving DecidableEq

/-- The login read loop of `main`: reads lines until one equals `loginMarker`.
An I/O error propagates via the source's `?`. Once the finite event list is
exhausted the process has exited; `read_line` then returns `Ok(0)` with an
empty line forever, which never equals the marker, so the loop spins forever
(`diverges`). -/
def login_loop : List ReadEvent → LoginOutcome
  | [] => LoginOutcome.diverges
  | ReadEvent.ioErr :: _ => LoginOutcome.fatalErr
  | ReadEvent.line s :: rest =>
    if stripNl s = loginMarker then LoginOutcome.loggedIn else login_loop rest

/-- Helper for splitting: prepend a character to the first piece. -/
def consHead (c : Char) : List (List Char) → List (List Char)
  | [] => [[c]]
  | h :: t => (c :: h) :: t

/-- Rust's `str::split(sep)` for a single-character separator: keeps empty
pieces, and the empty string splits to one empty piece. -/
def splitChar (sep : Char) : List Char → List (List Char)
  | [] => [[]]
  | c :: t => if c = sep then [] :: splitChar sep t else consHead c (splitChar sep t)

/-- The identifier marker the loader splits the reference on. -/
def idMarker : List Char := "?id=".data

/-- Fuelled version of `url.split("?id=")`: splits on each non-overlapping
occurrence of the four-character marker, keeping empty pieces. -/
def splitIdAux : Nat → List Char → List (List Char)
  | 0, s => [s]
  | f + 1, s =>
    if startsWith idMarker s then [] :: splitIdAux f (s.drop 4)
    else
      match s with
      | [] => [[]]
      | c :: t => consHead c (splitIdAux f t)

/-- `url.split("?id=")` from the source. -/
def splitIdMarker (s : List Char) : List (List Char) := splitIdAux (s.length + 1) s

/-- Lower bound of `i64`. -/
def i64Min : Int := -9223372036854775808

/-- Upper bound of `i64`. -/
def i64Max : Int := 9223372036854775807

/-- Rust's `str::parse::<i64>()`: an optional sign, then one or more decimal
digits, rejecting values outside the `i64` range. -/
def parse_i64 (s : List Char) : Option Int :=
  let sgn : Int := match s with
    | '-' :: _ => -1
    | _ => 1
  let ds : List Char := match s with
    | '+' :: r => r
    | '-' :: r => r
    | r => r
  if ds = [] then none
  else if ds.all (fun c => c.isDigit) then
    let n : Nat := ds.foldl (fun a c => a * 10 + (c.toNat - '0'.toNat)) 0
    let v : Int := sgn * n
    if i64Min ≤ v ∧ v ≤ i64Max then some v else none
  else none

/-- One manifest record, as built by `load_mods`. -/
structure RimMod where
  name : List Char
  id : Int
  url : List Char
deriving DecidableEq

/-- What processing one manifest line can do: produce a record, return an
error (`parse::<i64>()?`), or panic (`.expect("Mod Id")`). -/
inductive RowOutcome where
  | ok (m : RimMod)
  | err
  | panic
deriving DecidableEq

/-- Outcome of `load_mods` on a whole manifest. -/
inductive LoadOutcome where
  | ok (ms : List RimMod)
  | err
  | panic
deriving DecidableEq

/-- First whitespace-delimited token of a line (`parts[0]`; `split` never
returns an empty vector, so the index never panics). -/
def firstTok (row : List Char) : List Char := (splitChar ' ' row).headD []

/-- The remaining tokens rejoined with single spaces (`parts[1..].join(" ")`). -/
def restName (row : List Char) : List Char := List.intercalate [' '] ((splitChar ' ' row).tail)

/-- Identifier extraction from the reference token:
`url.split("?id=").get(1)` followed by `parse::<i64>()`. `none` covers both
the missing-marker and the unparseable cases. -/
def idFromUrl (url : List Char) : Option Int :=
  match (splitIdMarker url)[1]? with
  | none => none
  | some s => parse_i64 s

/-- Identifier extracted from a whole manifest line. -/
def rowIdOf (row : List Char) : Option Int := idFromUrl (firstTok row)

/-- Processing of one manifest line by `load_mods`, distinguishing the panic
of `.expect("Mod Id")` (marker absent) from the error return of
`parse::<i64>()?` (unparseable identifier). -/
def parse_row (row : List Char) : RowOutcome :=
  match (splitIdMarker (firstTok row))[1]? with
  | none => RowOutcome.panic
  | some s =>
    match parse_i64 s with
    | none => RowOutcome.err
    | some id => RowOutcome.ok ⟨restName row, id, firstTok row⟩

/-- `load_mods` over the manifest's lines: records accumulate in file order;
the first line that errors or panics aborts the whole load. -/
def load_mods : List (List Char) → LoadOutcome
  | [] => LoadOutcome.ok []
  | r :: rs =>
    match parse_row r with
    | RowOutcome.panic => LoadOutcome.panic
    | RowOutcome.err => LoadOutcome.err
    | RowOutcome.ok m =>
      match load_mods rs with
      | LoadOutcome.ok ms => LoadOutcome.ok (m :: ms)
      | LoadOutcome.err => LoadOutcome.err
      | LoadOutcome.panic => LoadOutcome.panic

/-- The record `load_mods` builds for a well-formed line. -/
def mkMod (row : List Char) : RimMod := ⟨restName row, (rowIdOf row).getD 0, firstTok row⟩

/-- Reassembling a reference token and display name into a manifest line. -/
def formatLine (url name : List Char) : List Char := url ++ ' ' :: name

/-- A filesystem node: a plain file or a directory with named entries. -/
inductive FsNode where
  | file
  | dir (entries : List (List Char × FsNode))

/-- Entries of a directory. -/
abbrev Entries := List (List Char × FsNode)

/-- The per-item directory pair: `mods_dir/<id>` and `steam_dir/<id>`.
`none` means the path is not a directory. -/
structure ItemFs where
  modDir : Option Entries
  steamDir : Option Entries

/-- Trace of the retry loop `for i in 0..3`: the observed attempt results, in
order, stopping right after the first success. -/
def attempts_go (att : Nat → Bool) : Nat → Nat → List Bool
  | 0, _ => []
  | f + 1, i => att i :: (if att i then [] else attempts_go att f (i + 1))

/-- Trace of the readiness poller `for i in 0..10`: for each iteration, the
sleep duration in milliseconds performed before the check and the observed
existence of the staging directory, stopping right after the first success. -/
def poll_go (ex : Nat → Bool) : Nat → Nat → List (Nat × Bool)
  | 0, _ => []
  | f + 1, i => (i * 250, ex i) :: (if ex i then [] else poll_go ex f (i + 1))

/-- The readiness poller's trace for a whole run of its loop. -/
def poll_events (ex : Nat → Bool) : List (Nat × Bool) := poll_go ex 10 0

/-- The download command `format!("workshop_download_item {} {}", 294100, id)`. -/
def dlCmd (id : Int) : List Char := "workshop_download_item 294100 ".data ++ intChars id

/-- The `bail!("Error downloading mod {}", name)` message of the orchestrator. -/
def bailMsg (name : List Char) : List Char := "Error downloading mod ".data ++ name

/-- Stand-in message for a failed `fs_extra::copy_items` call. -/
def copyErrMsg : List Char := "copy_items failed".data

/-- `fs_extra::copy_items(&[steam_path], mod_path, &CopyOptions::new())`: with
the default options the source directory itself (named by the decimal id) is
copied into the destination, becoming one new entry of `mod_path`. -/
def copyInto (modE : Entries) (id : Int) (steamE : Entries) : Entries :=
  modE ++ [(intChars id, FsNode.dir steamE)]

/-- Everything observable about processing one item: final directory states,
commands written to the session, directory effects, the poller trace, and the
fatal error message if the item aborted the run. -/
structure ItemResult where
  fs : ItemFs
  commands : List (List Char)
  removedMod : Bool
  removedSteam : Bool
  createdMod : Bool
  copied : Bool
  polls : List (Nat × Bool)
  failed : Option (List Char)

/-- The download half of the per-item pipeline (source lines 118-152): the
bounded retry loop, the bail on exhaustion, the readiness poller, directory
creation and the final copy. `att i` abstracts whether the i-th
`steamcmd_download` call returns `Ok`; `steamAfter` is the staging directory's
content once the client has reported success. -/
def pi_download (id : Int) (name : List Char) (fs : ItemFs) (att : Nat → Bool)
    (steamAfter : Option Entries) (pollEx : Nat → Bool) (rm rs : Bool) : ItemResult :=
  let tr := attempts_go att 3 0
  let cmds := tr.map (fun _ => dlCmd id)
  if true ∈ tr then
    match steamAfter with
    | some se =>
      match fs.modDir with
      | some modE =>
        ⟨⟨some (copyInto modE id se), some se⟩, cmds, rm, rs, false, true, poll_events pollEx, none⟩
      | none =>
        ⟨⟨some (copyInto [] id se), some se⟩, cmds, rm, rs, true, true, poll_events pollEx, none⟩
    | none =>
      match fs.modDir with
      | some modE =>
        ⟨⟨some modE, none⟩, cmds, rm, rs, false, false, poll_events pollEx, some copyErrMsg⟩
      | none =>
        ⟨⟨some [], none⟩, cmds, rm, rs, true, false, poll_events pollEx, some copyErrMsg⟩
  else
    ⟨fs, cmds, rm, rs, false, false, [], some (bailMsg name)⟩

/-- The staging-directory check of the per-item pipeline (source lines
104-116): clean removal, or reuse of a non-empty leftover download (create the
destination if needed and copy), or fall through to the download. -/
def pi_steam (clean : Bool) (id : Int) (name : List Char) (fs : ItemFs) (att : Nat → Bool)
    (steamAfter : Option Entries) (pollEx : Nat → Bool) (rm : Bool) : ItemResult :=
  match fs.steamDir with
  | some es =>
    if clean then
      pi_download id name ⟨fs.modDir, none⟩ att steamAfter pollEx rm true
    else if es.length > 0 then
      match fs.modDir with
      | some modE =>
        ⟨⟨some (copyInto modE id es), some es⟩, [], rm, false, false, true, [], none⟩
      | none =>
        ⟨⟨some (copyInto [] id es), some es⟩, [], rm, false, true, true, [], none⟩
    else
      pi_download id name fs att steamAfter pollEx rm false
  | none => pi_download id name fs att steamAfter pollEx rm false

/-- Processing of one item by the orchestrator loop (source lines 90-153),
starting with the destination-directory check: clean removal, skip when the
destination is non-empty, otherwise fall through. -/
def process_item (clean : Bool) (id : Int) (name : List Char) (fs : ItemFs) (att : Nat → Bool)
    (steamAfter : Option Entries) (pollEx : Nat → Bool) : ItemResult :=
  match fs.modDir with
  | some es =>
    if clean then
      pi_steam clean id name ⟨none, fs.steamDir⟩ att steamAfter pollEx true
    else if es.length > 0 then
      ⟨fs, [], false, false, false, false, [], none⟩
    else
      pi_steam clean id name fs att steamAfter pollEx false
  | none => pi_steam clean id name fs att steamAfter pollEx false

/-- One item of the run: its identity, its directories' initial states, and
the oracles describing the external client's behaviour for it. -/
structure ItemInput where
  id : Int
  name : List Char
  fs : ItemFs
  att : Nat → Bool
  steamAfter : Option Entries
  pollEx : Nat → Bool

/-- The orchestrator's iteration over the manifest: items are processed in
order and the first fatal per-item failure aborts the run, leaving the
remaining items untouched. -/
def run_items (clean : Bool) : List ItemInput → List ItemResult × Option (List Char)
  | [] => ([], none)
  | it :: rest =>
    let r := process_item clean it.id it.name it.fs it.att it.steamAfter it.pollEx
    match r.failed with
    | some msg => ([r], some msg)
    | none =>
      let p := run_items clean rest
      (r :: p.1, p.2)

/-- The coarse steps of `main`, in program order. -/
inductive MainEvent where
  | spawnSession
  | sendLogin
  | loadList
  | processItems
deriving DecidableEq

/-- The order of `main`'s steps (source lines 39-153), as a function of which
startup checks pass and whether the login handshake completes: validate the
two roots and the manifest's presence, spawn steamcmd, send the login command,
and only after the handshake load the manifest and iterate the items. -/
def main_events (modsOk steamOk manifestOk loginCompletes : Bool) : List MainEvent :=
  if modsOk then
    if steamOk then
      if manifestOk then
        MainEvent.spawnSession :: MainEvent.sendLogin ::
          (if loginCompletes then [MainEvent.loadList, MainEvent.processItems] else [])
      else []
    else []
  else []

theorem digitToChar_inj : ∀ a, a < 10 → ∀ b, b < 10 → digitToChar a = digitToChar b → a = b := by
  decide

theorem digitToChar_spec : ∀ d, d < 10 → digitToChar d ≠ ' ' ∧ digitToChar d ≠ '-' := by
  decide

theorem natCharsAux_mem : ∀ f n c, c ∈ natCharsAux f n → ∃ d, d < 10 ∧ c = digitToChar d := by
  intro f
  induction f with
  | zero => intro n c h; simp [natCharsAux] at h
  | succ f ih =>
    intro n c h
    by_cases hn : n < 10
    · simp [natCharsAux, hn] at h
      exact ⟨n, hn, h⟩
    · simp [natCharsAux, hn] at h
      rcases h with h | h
      · exact ih _ _ h
      · exact ⟨n % 10, Nat.mod_lt _ (by omega), h⟩

theorem natCharsAux_eq (f : Nat) : ∀ n, 1 ≤ n → n < f →
    natCharsAux f n = ((Nat.digits 10 n).map digitToChar).reverse := by
  induction f with
  | zero => intro n h1 h2; omega
  | succ f ih =>
    intro n h1 h2
    by_cases hn : n < 10
    · have hd : Nat.digits 10 n = [n] := by
        rw [Nat.digits_def' (by norm_num : (1:Nat) < 10) (by omega)]
        rw [Nat.mod_eq_of_lt hn, Nat.div_eq_of_lt hn, Nat.digits_zero]
      simp [natCharsAux, hn, hd]
    · have hdiv1 : 1 ≤ n / 10 := (Nat.one_le_div_iff (by norm_num)).mpr (by omega)
      have hlt : n / 10 < n := Nat.div_lt_self (by omega) (by norm_num)
      have hd : Nat.digits 10 n = n % 10 :: Nat.digits 10 (n / 10) :=
        Nat.digits_def' (by norm_num : (1:Nat) < 10) (by omega)
      simp [natCharsAux, hn, hd, ih (n / 10) hdiv1 (by omega)]

theorem natChars_eq (n : Nat) :
    natChars n = if n = 0 then ['0'] else ((Nat.digits 10 n).map digitToChar).reverse := by
  by_cases h : n = 0
  · subst h; rfl
  · rw [natChars, natCharsAux_eq (n + 1) n (by omega) (by omega)]
    simp [h]

theorem digits_map_inj : ∀ l1 l2 : List Nat, (∀ x ∈ l1, x < 10) → (∀ x ∈ l2, x < 10) →
    l1.map digitToChar = l2.map digitToChar → l1 = l2 := by
  intro l1
  induction l1 with
  | nil =>
    intro l2 _ _ h
    cases l2 with
    | nil => rfl
    | cons b t => simp at h
  | cons a t ih =>
    intro l2 h1 h2 h
    cases l2 with
    | nil => simp at h
    | cons b t2 =>
      simp only [List.map_cons, List.cons.injEq] at h
      have ha : a = b := digitToChar_inj a (h1 a (by simp)) b (h2 b (by simp)) h.1
      have ht : t = t2 :=
        ih t2 (fun x hx => h1 x (by simp [hx])) (fun x hx => h2 x (by simp [hx])) h.2
      rw [ha, ht]

theorem natChars_inj : ∀ a b : Nat, natChars a = natChars b → a = b := by
  intro a b h
  rw [natChars_eq, natChars_eq] at h
  by_cases ha : a = 0 <;> by_cases hb : b = 0
  · omega
  · exfalso
    simp only [ha, hb, if_pos, if_neg, if_true, if_false] at h
    have h2 : (Nat.digits 10 b).map digitToChar = ['0'] := by
      have := congrArg List.reverse h
      simpa using this.symm
    cases hdib : Nat.digits 10 b with
    | nil => rw [hdib] at h2; simp at h2
    | cons d t =>
      rw [hdib] at h2
      simp only [List.map_cons, List.cons.injEq] at h2
      have hd10 : d < 10 := Nat.digits_lt_base (by norm_num) (by rw [hdib]; simp)
      have hd0 : d = 0 := digitToChar_inj d hd10 0 (by norm_num) (by simpa using h2.1)
      have ht : t = [] := by simpa using h2.2
      have : b = Nat.ofDigits 10 (Nat.digits 10 b) := (Nat.ofDigits_digits 10 b).symm
      rw [hdib, hd0, ht] at this
      simp [Nat.ofDigits] at this
      exact hb this
  · exfalso
    simp only [ha, hb, if_pos, if_neg, if_true, if_false] at h
    have h2 : (Nat.digits 10 a).map digitToChar = ['0'] := by
      have := congrArg List.reverse h
      simpa using this
    cases hdia : Nat.digits 10 a with
    | nil => rw [hdia] at h2; simp at h2
    | cons d t =>
      rw [hdia] at h2
      simp only [List.map_cons, List.cons.injEq] at h2
      have hd10 : d < 10 := Nat.digits_lt_base (by norm_num) (by rw [hdia]; simp)
      have hd0 : d = 0 := digitToChar_inj d hd10 0 (by norm_num) (by simpa using h2.1)
      have ht : t = [] := by simpa using h2.2
      have : a = Nat.ofDigits 10 (Nat.digits 10 a) := (Nat.ofDigits_digits 10 a).symm
      rw [hdia, hd0, ht] at this
      simp [Nat.ofDigits] at this
      exact ha this
  · simp only [ha, hb, if_neg, if_false] at h
    have hmap : (Nat.digits 10 a).map digitToChar = (Nat.digits 10 b).map digitToChar := by
      have := congrArg List.reverse h
      simpa using this
    have hdig : Nat.digits 10 a = Nat.digits 10 b :=
      digits_map_inj _ _ (fun x hx => Nat.digits_lt_base (by norm_num) hx)
        (fun x hx => Nat.digits_lt_base (by norm_num) hx) hmap
    calc a = Nat.ofDigits 10 (Nat.digits 10 a) := (Nat.ofDigits_digits 10 a).symm
    _ = Nat.ofDigits 10 (Nat.digits 10 b) := by rw [hdig]
    _ = b := Nat.ofDigits_digits 10 b

theorem natChars_ne_nil (n : Nat) : natChars n ≠ [] := by
  rw [natChars_eq]
  split
  · simp
  · simp [Nat.digits_ne_nil_iff_ne_zero.mpr (by assumption)]

theorem natChars_chars (n : Nat) : ∀ c ∈ natChars n, c ≠ ' ' ∧ c ≠ '-' := by
  intro c hc
  obtain ⟨d, hd, rfl⟩ := natCharsAux_mem (n + 1) n c hc
  exact digitToChar_spec d hd

theorem intChars_inj : ∀ a b : Int, intChars a = intChars b → a = b := by
  intro a b
  cases a with
  | ofNat m =>
    cases b with
    | ofNat n => intro h; exact congrArg Int.ofNat (natChars_inj _ _ h)
    | negSucc n =>
      intro h
      exfalso
      simp only [intChars] at h
      cases hm : natChars m with
      | nil => exact natChars_ne_nil m hm
      | cons c t =>
        rw [hm] at h
        simp only [List.cons.injEq] at h
        exact (natChars_chars m c (by rw [hm]; simp)).2 h.1
  | negSucc m =>
    cases b with
    | ofNat n =>
      intro h
      exfalso
      cases hn : natChars n with
      | nil => exact natChars_ne_nil n hn
      | cons c t =>
        rw [intChars, intChars, hn] at h
        simp only [List.cons.injEq] at h
        exact (natChars_chars n c (by rw [hn]; simp)).2 h.1.symm
    | negSucc n =>
      intro h
      simp only [intChars, List.cons.injEq] at h
      have := natChars_inj _ _ h.2
      exact congrArg Int.negSucc (by omega)

theorem intChars_no_space (i : Int) : ∀ c ∈ intChars i, c ≠ ' ' := by
  intro c hc
  cases i with
  | ofNat n => exact (natChars_chars n c hc).1
  | negSucc n =>
    simp only [intChars, List.mem_cons] at hc
    rcases hc with rfl | hc
    · decide
    · exact (natChars_chars (n + 1) c hc).1

theorem startsWith_cancel (p : List Char) : ∀ a b, startsWith (p ++ a) (p ++ b) = startsWith a b := by
  induction p with
  | nil => intro a b; rfl
  | cons c t ih => intro a b; simp [startsWith, ih]

theorem startsWith_exists (p : List Char) : ∀ s, startsWith p s = true ↔ ∃ t, s = p ++ t := by
  induction p with
  | nil => intro s; simp [startsWith]
  | cons a q ih =>
    intro s
    cases s with
    | nil => simp [startsWith]
    | cons b s2 =>
      simp only [startsWith, Bool.and_eq_true, beq_iff_eq, ih, List.cons_append,
        List.cons.injEq]
      constructor
      · rintro ⟨rfl, t, rfl⟩; exact ⟨t, rfl, rfl⟩
      · rintro ⟨t, rfl, rfl⟩; exact ⟨rfl, t, rfl⟩

theorem startsWith_self_app (p r : List Char) : startsWith p (p ++ r) = true :=
  (startsWith_exists p _).mpr ⟨r, rfl⟩

theorem startsWith_space (x : List Char) : ∀ y u v : List Char,
    (∀ c ∈ x, c ≠ ' ') → (∀ c ∈ y, c ≠ ' ') →
    startsWith (x ++ ' ' :: u) (y ++ ' ' :: v) = true → x = y := by
  induction x with
  | nil =>
    intro y u v _ hy h
    cases y with
    | nil => rfl
    | cons b t =>
      exfalso
      simp only [List.nil_append, List.cons_append, startsWith, Bool.and_eq_true,
        beq_iff_eq] at h
      exact hy b (by simp) h.1.symm
  | cons a t ih =>
    intro y u v hx hy h
    cases y with
    | nil =>
      exfalso
      simp only [List.cons_append, List.nil_append, startsWith, Bool.and_eq_true,
        beq_iff_eq] at h
      exact hx a (by simp) h.1
    | cons b t2 =>
      simp only [List.cons_append, startsWith, Bool.and_eq_true, beq_iff_eq] at h
      have := ih t2 u v (fun c hc => hx c (by simp [hc])) (fun c hc => hy c (by simp [hc])) h.2
      rw [h.1, this]

theorem startsWith_cons_ne (a b : Char) (p s : List Char) (h : a ≠ b) :
    startsWith (a :: p) (b :: s) = false := by
  simp only [startsWith, Bool.and_eq_false_imp, beq_iff_eq]
  intro hab
  exact absurd hab h

theorem startsWith_cons_self (a : Char) (p s : List Char) :
    startsWith (a :: p) (a :: s) = startsWith p s := by
  simp [startsWith]

theorem sw_succ_succ (id id1 : Int) (r : List Char) (hne : id1 ≠ id) :
    startsWith (succPrefixOf id) (succPrefixOf id1 ++ r) = false := by
  by_contra hc
  rw [Bool.not_eq_false] at hc
  rw [succPrefixOf, succPrefixOf] at hc
  simp only [List.append_assoc, List.cons_append, List.nil_append] at hc
  simp only [startsWith_cons_self] at hc
  exact hne (intChars_inj id1 id
    (startsWith_space _ _ _ _ (intChars_no_space id) (intChars_no_space id1) hc).symm)

theorem sw_err_err (id id1 : Int) (r : List Char) (hne : id1 ≠ id) :
    startsWith (errPrefixOf id) (errPrefixOf id1 ++ r) = false := by
  by_contra hc
  rw [Bool.not_eq_false] at hc
  rw [errPrefixOf, errPrefixOf] at hc
  simp only [List.append_assoc, List.cons_append, List.nil_append] at hc
  simp only [startsWith_cons_self] at hc
  exact hne (intChars_inj id1 id
    (startsWith_space _ _ _ _ (intChars_no_space id) (intChars_no_space id1) hc).symm)

theorem sw_err_succ (id id1 : Int) (r : List Char) :
    startsWith (errPrefixOf id) (succPrefixOf id1 ++ r) = false := by
  rw [errPrefixOf, succPrefixOf]
  simp only [List.append_assoc, List.cons_append, List.nil_append]
  simp [startsWith]

theorem sw_succ_err (id id1 : Int) (r : List Char) :
    startsWith (succPrefixOf id) (errPrefixOf id1 ++ r) = false := by
  rw [succPrefixOf, errPrefixOf]
  simp only [List.append_assoc, List.cons_append, List.nil_append]
  simp [startsWith]

/-- Claim C1: the download read loop transitions to success exactly on a line
starting with the success prefix for the item's own id, transitions to failure
(carrying a message with the item's name and id) exactly on a line starting
with the failure prefix for its own id, and keeps reading on every other line;
in particular success or failure lines for a different identifier never
trigger a transition. -/
theorem download_protocol_transitions (name : List Char) (id id1 : Int)
    (line r : List Char) (rest : List (List Char)) (hne : id1 ≠ id) :
    (dl_step id line = DlStep.succeeded ↔ startsWith (succPrefixOf id) line = true)
  ∧ (dl_step id line = DlStep.failed ↔
      (startsWith (succPrefixOf id) line = false ∧ startsWith (errPrefixOf id) line = true))
  ∧ (dl_step id (stripNl line) = DlStep.succeeded →
      steamcmd_download name id (line :: rest) = some (Except.ok ()))
  ∧ (dl_step id (stripNl line) = DlStep.failed →
      steamcmd_download name id (line :: rest) = some (Except.error (dlErrMsg name id)))
  ∧ (dl_step id (stripNl line) = DlStep.kept →
      steamcmd_download name id (line :: rest) = steamcmd_download name id rest)
  ∧ dl_step id (succPrefixOf id1 ++ r) = DlStep.kept
  ∧ dl_step id (errPrefixOf id1 ++ r) = DlStep.kept := by
  refine ⟨?_, ?_, ?_, ?_, ?_, ?_, ?_⟩
  · rw [dl_step]
    split
    · simp [*]
    · split <;> simp [*]
  · rw [dl_step]
    split
    · rename_i hs
      simp [hs]
    · split <;> simp_all
  · intro h; rw [steamcmd_download, h]
  · intro h; rw [steamcmd_download, h]
  · intro h; rw [steamcmd_download, h]
  · rw [dl_step, sw_succ_succ id id1 r hne, sw_err_succ id id1 r]
    simp
  · rw [dl_step, sw_succ_err id id1 r, sw_err_err id id1 r hne]
    simp

theorem download_protocol_transitions_witness :
    dl_step 1 (succPrefixOf 2 ++ []) = DlStep.kept :=
  (download_protocol_transitions "M".data 1 2 "x".data [] [] (by decide)).2.2.2.2.2.1

/-- Claim C3 (amended): the login loop reads lines until one equals the
marker; an I/O read error propagates fatally; but a clean end-of-stream does
not terminate the loop — `read_line` keeps returning empty lines and the loop
spins forever, raising no login-failure error. -/
theorem login_handshake_behaviour (lines : List (List Char)) (rest : List ReadEvent)
    (h : ∀ l ∈ lines, stripNl l ≠ loginMarker) :
    login_loop (lines.map ReadEvent.line) = LoginOutcome.diverges
  ∧ login_loop (lines.map ReadEvent.line ++ ReadEvent.ioErr :: rest) = LoginOutcome.fatalErr
  ∧ ∀ m more, stripNl m = loginMarker →
      login_loop (lines.map ReadEvent.line ++ ReadEvent.line m :: more) = LoginOutcome.loggedIn := by
  revert h
  induction lines with
  | nil =>
    intro _
    exact ⟨rfl, rfl, fun m more hm => by simp [login_loop, hm]⟩
  | cons l ls ih =>
    intro h
    have hl : stripNl l ≠ loginMarker := h l (by simp)
    obtain ⟨i1, i2, i3⟩ := ih (fun x hx => h x (by simp [hx]))
    refine ⟨?_, ?_, ?_⟩
    · simpa [login_loop, hl] using i1
    · simpa [login_loop, hl] using i2
    · intro m more hm
      simpa [login_loop, hl] using i3 m more hm

theorem login_handshake_witness :
    login_loop [ReadEvent.line "foo".data] = LoginOutcome.diverges :=
  (login_handshake_behaviour ["foo".data] [] (by decide)).1

/-- Claim C3 counterexample: when the channel closes (end-of-stream) before
the marker appears, the run does not fail fatally — the login loop diverges. -/
theorem login_eof_no_fatal :
    login_loop [] = LoginOutcome.diverges ∧ LoginOutcome.diverges ≠ LoginOutcome.fatalErr :=
  ⟨rfl, by decide⟩

/-- Claim C9 (amended): `main` validates the two roots and the presence of the
manifest file, then spawns the subprocess session, sends the login command,
completes the handshake, and only then loads the manifest and iterates the
items; the manifest is parsed after login, though its presence is checked
before spawning. -/
theorem main_step_order (a b c d : Bool) :
    ((main_events a b c d).indexOf MainEvent.spawnSession ≤
      (main_events a b c d).indexOf MainEvent.sendLogin)
  ∧ (MainEvent.loadList ∈ main_events a b c d →
      (main_events a b c d).indexOf MainEvent.sendLogin <
        (main_events a b c d).indexOf MainEvent.loadList)
  ∧ (MainEvent.processItems ∈ main_events a b c d →
      (main_events a b c d).indexOf MainEvent.loadList <
        (main_events a b c d).indexOf MainEvent.processItems)
  ∧ (MainEvent.spawnSession ∈ main_events a b c d → c = true) := by
  cases a <;> cases b <;> cases c <;> cases d <;> decide

theorem main_step_order_witness :
    (MainEvent.loadList ∈ main_events true true true true)
  ∧ (main_events true true true true).indexOf MainEvent.sendLogin <
      (main_events true true true true).indexOf MainEvent.loadList :=
  ⟨by decide, (main_step_order true true true true).2.1 (by decide)⟩

/-- Claim C9 counterexample: in the program's actual order the subprocess is
spawned (and login sent) before the manifest is loaded, so the manifest load
does not precede the spawn. -/
theorem main_step_order_cex :
    main_events true true true true =
      [MainEvent.spawnSession, MainEvent.sendLogin, MainEvent.loadList, MainEvent.processItems]
  ∧ ¬ (main_events true true true true).indexOf MainEvent.loadList <
      (main_events true true true true).indexOf MainEvent.spawnSession := by
  decide

theorem poll_go_length_le (ex : Nat → Bool) : ∀ f i, (poll_go ex f i).length ≤ f := by
  intro f
  induction f with
  | zero => intro i; simp [poll_go]
  | succ f ih =>
    intro i
    by_cases h : ex i
    · simp [poll_go, h]
    · rw [poll_go, if_neg (by simp [h])]
      simp only [List.length_cons]
      have := ih (i + 1)
      omega

theorem poll_go_get (ex : Nat → Bool) : ∀ f i m,
    (poll_go ex f i)[m]? = some ((i + m) * 250, ex (i + m)) ∨ (poll_go ex f i)[m]? = none := by
  intro f
  induction f with
  | zero => intro i m; right; simp [poll_go]
  | succ f ih =>
    intro i m
    cases m with
    | zero => left; simp [poll_go]
    | succ m =>
      by_cases h : ex i
      · right; simp [poll_go, h]
      · have h2 := ih (i + 1) m
        rw [show i + 1 + m = i + (m + 1) from by omega] at h2
        rcases h2 with h2 | h2
        · left; simp [poll_go, h, h2]
        · right; simp [poll_go, h, h2]

theorem poll_go_first (ex : Nat → Bool) : ∀ f i k, k < f → ex (i + k) = true →
    (∀ j, j < k → ex (i + j) = false) → (poll_go ex f i).length = k + 1 := by
  intro f
  induction f with
  | zero => intro i k hk; omega
  | succ f ih =>
    intro i k hk hx hmin
    cases k with
    | zero =>
      have : ex i = true := by simpa using hx
      simp [poll_go, this]
    | succ k =>
      have h0 : ex i = false := by simpa using hmin 0 (by omega)
      have hrec : (poll_go ex f (i + 1)).length = k + 1 := by
        apply ih (i + 1) k (by omega)
        · rwa [show i + 1 + k = i + (k + 1) from by omega]
        · intro j hj
          have := hmin (j + 1) (by omega)
          rwa [show i + (j + 1) = i + 1 + j from by omega] at this
      simp [poll_go, h0, hrec]

theorem poll_go_all_false (ex : Nat → Bool) : ∀ f i, (∀ j, j < f → ex (i + j) = false) →
    (poll_go ex f i).length = f := by
  intro f
  induction f with
  | zero => intro i _; simp [poll_go]
  | succ f ih =>
    intro i h
    have h0 : ex i = false := by simpa using h 0 (by omega)
    have hrec : (poll_go ex f (i + 1)).length = f := by
      apply ih (i + 1)
      intro j hj
      have := h (j + 1) (by omega)
      rwa [show i + (j + 1) = i + 1 + j from by omega] at this
    simp [poll_go, h0, hrec]

theorem pi_download_poll_invariant (id : Int) (name : List Char) (fs : ItemFs)
    (att : Nat → Bool) (sa : Option Entries) (p1 p2 : Nat → Bool) (rm rs : Bool) :
    (pi_download id name fs att sa p1 rm rs).failed = (pi_download id name fs att sa p2 rm rs).failed
  ∧ (pi_download id name fs att sa p1 rm rs).fs = (pi_download id name fs att sa p2 rm rs).fs
  ∧ (pi_download id name fs att sa p1 rm rs).copied = (pi_download id name fs att sa p2 rm rs).copied
  ∧ (pi_download id name fs att sa p1 rm rs).commands = (pi_download id name fs att sa p2 rm rs).commands := by
  by_cases h : true ∈ attempts_go att 3 0 <;>
    cases hsa : sa <;> cases hm : fs.modDir <;> simp [pi_download, h, hsa, hm]

theorem pi_steam_poll_invariant (clean : Bool) (id : Int) (name : List Char) (fs : ItemFs)
    (att : Nat → Bool) (sa : Option Entries) (p1 p2 : Nat → Bool) (rm : Bool) :
    (pi_steam clean id name fs att sa p1 rm).failed = (pi_steam clean id name fs att sa p2 rm).failed
  ∧ (pi_steam clean id name fs att sa p1 rm).fs = (pi_steam clean id name fs att sa p2 rm).fs
  ∧ (pi_steam clean id name fs att sa p1 rm).copied = (pi_steam clean id name fs att sa p2 rm).copied
  ∧ (pi_steam clean id name fs att sa p1 rm).commands = (pi_steam clean id name fs att sa p2 rm).commands := by
  cases hs : fs.steamDir with
  | none => simpa [pi_steam, hs] using pi_download_poll_invariant id name fs att sa p1 p2 rm false
  | some es =>
    by_cases hc : clean
    · simpa [pi_steam, hs, hc] using
        pi_download_poll_invariant id name ⟨fs.modDir, none⟩ att sa p1 p2 rm true
    · by_cases hl : es.length > 0
      · cases hm : fs.modDir <;> simp [pi_steam, hs, hc, hl, hm]
      · simpa [pi_steam, hs, hc, hl] using pi_download_poll_invariant id name fs att sa p1 p2 rm false

/-- Claim C5: the readiness poller performs at most 10 checks, sleeps
`i * 250` milliseconds before check `i`, stops right at the first check that
observes the staging directory, performs all 10 checks when the directory
never appears, and regardless of what the poller observes the rest of the
per-item pipeline behaves identically (no error is ever raised by polling). -/
theorem readiness_poller_spec (ex : Nat → Bool) :
    (poll_events ex).length ≤ 10
  ∧ (∀ m, (poll_events ex)[m]? = some (m * 250, ex m) ∨ (poll_events ex)[m]? = none)
  ∧ (∀ k, k < 10 → ex k = true → (∀ j, j < k → ex j = false) → (poll_events ex).length = k + 1)
  ∧ ((∀ j, j < 10 → ex j = false) → (poll_events ex).length = 10)
  ∧ (∀ clean id name fs att sa p1 p2,
      (process_item clean id name fs att sa p1).failed = (process_item clean id name fs att sa p2).failed
    ∧ (process_item clean id name fs att sa p1).fs = (process_item clean id name fs att sa p2).fs
    ∧ (process_item clean id name fs att sa p1).copied = (process_item clean id name fs att sa p2).copied
    ∧ (process_item clean id name fs att sa p1).commands = (process_item clean id name fs att sa p2).commands) := by
  refine ⟨poll_go_length_le ex 10 0, ?_, ?_, ?_, ?_⟩
  · intro m
    simpa using poll_go_get ex 10 0 m
  · intro k hk hx hmin
    exact poll_go_first ex 10 0 k hk (by simpa using hx) (fun j hj => by simpa using hmin j hj)
  · intro h
    exact poll_go_all_false ex 10 0 (fun j hj => by simpa using h j hj)
  · intro clean id name fs att sa p1 p2
    cases hm : fs.modDir with
    | none => simpa [process_item, hm] using pi_steam_poll_invariant clean id name fs att sa p1 p2 false
    | some es =>
      by_cases hc : clean
      · simpa [process_item, hm, hc] using
          pi_steam_poll_invariant clean id name ⟨none, fs.steamDir⟩ att sa p1 p2 true
      · by_cases hl : es.length > 0
        · simp [process_item, hm, hc, hl]
        · simpa [process_item, hm, hc, hl] using
            pi_steam_poll_invariant clean id name fs att sa p1 p2 false

theorem readiness_poller_witness :
    (poll_events (fun i => decide (i = 3))).length = 4 :=
  (readiness_poller_spec (fun i => decide (i = 3))).2.2.1 3 (by decide) (by decide) (by decide)

/-- Claim C4: when the clean flag is false and the destination directory for
an item exists and is non-empty, the orchestrator skips the item entirely: no
command is written to the session and neither directory is touched. -/
theorem skip_nonempty_destination (id : Int) (name : List Char) (es : Entries)
    (sd : Option Entries) (att pollEx : Nat → Bool) (sa : Option Entries) (h : es ≠ []) :
    process_item false id name ⟨some es, sd⟩ att sa pollEx =
      ⟨⟨some es, sd⟩, [], false, false, false, false, [], none⟩ := by
  have hl : es.length > 0 := List.length_pos.mpr h
  simp [process_item, hl]

theorem skip_nonempty_destination_witness :
    process_item false 1 "n".data ⟨some [("a".data, FsNode.file)], none⟩ (fun _ => false) none
      (fun _ => false) =
    ⟨⟨some [("a".data, FsNode.file)], none⟩, [], false, false, false, false, [], none⟩ :=
  skip_nonempty_destination 1 "n".data [("a".data, FsNode.file)] none (fun _ => false)
    (fun _ => false) none (List.cons_ne_nil _ _)

theorem attempts_go_length_le (att : Nat → Bool) : ∀ f i, (attempts_go att f i).length ≤ f := by
  intro f
  induction f with
  | zero => intro i; simp [attempts_go]
  | succ f ih =>
    intro i
    by_cases h : att i
    · simp [attempts_go, h]
    · rw [attempts_go, if_neg (by simp [h])]
      simp only [List.length_cons]
      have := ih (i + 1)
      omega

theorem attempts_go_three (att : Nat → Bool) :
    attempts_go att 3 0 = att 0 :: (if att 0 then [] else
      att 1 :: (if att 1 then [] else
        att 2 :: (if att 2 then [] else []))) := rfl

theorem pi_download_commands_le (id : Int) (name : List Char) (fs : ItemFs) (att : Nat → Bool)
    (sa : Option Entries) (p : Nat → Bool) (rm rs : Bool) :
    (pi_download id name fs att sa p rm rs).commands.length ≤ 3 := by
  by_cases h : true ∈ attempts_go att 3 0 <;> cases hsa : sa <;> cases hm : fs.modDir <;>
    simp [pi_download, h, hsa, hm] <;> exact attempts_go_length_le att 3 0

theorem pi_steam_commands_le (clean : Bool) (id : Int) (name : List Char) (fs : ItemFs)
    (att : Nat → Bool) (sa : Option Entries) (p : Nat → Bool) (rm : Bool) :
    (pi_steam clean id name fs att sa p rm).commands.length ≤ 3 := by
  cases hst : fs.steamDir with
  | none => simpa [pi_steam, hst] using pi_download_commands_le id name fs att sa p rm false
  | some es =>
    by_cases hc : clean
    · simpa [pi_steam, hst, hc] using
        pi_download_commands_le id name ⟨fs.modDir, none⟩ att sa p rm true
    · by_cases hl : es.length > 0
      · cases hm : fs.modDir <;> simp [pi_steam, hst, hc, hl, hm]
      · simpa [pi_steam, hst, hc, hl] using pi_download_commands_le id name fs att sa p rm false

theorem process_item_commands_le (clean : Bool) (id : Int) (name : List Char) (fs : ItemFs)
    (att : Nat → Bool) (sa : Option Entries) (p : Nat → Bool) :
    (process_item clean id name fs att sa p).commands.length ≤ 3 := by
  cases hm : fs.modDir with
  | none => simpa [process_item, hm] using pi_steam_commands_le clean id name fs att sa p false
  | some es =>
    by_cases hc : clean
    · simpa [process_item, hm, hc] using
        pi_steam_commands_le clean id name ⟨none, fs.steamDir⟩ att sa p true
    · by_cases hl : es.length > 0
      · simp [process_item, hm, hc, hl]
      · simpa [process_item, hm, hc, hl] using pi_steam_commands_le clean id name fs att sa p false

/-- Claim C2: per item at most 3 download attempts are made (hence at most 3
download commands written), the retry loop stops right after the first
successful attempt, and when all 3 attempts fail the run aborts with an error
naming the mod, leaving every subsequent item unprocessed. -/
theorem download_retry_spec :
    (∀ clean id name fs att sa p, (process_item clean id name fs att sa p).commands.length ≤ 3)
  ∧ (∀ (att : Nat → Bool) k, k < 3 → att k = true → (∀ j, j < k → att j = false) →
      attempts_go att 3 0 = List.replicate k false ++ [true])
  ∧ (∀ clean (it : ItemInput) (rest : List ItemInput), it.fs = ⟨none, none⟩ →
      (∀ i, i < 3 → it.att i = false) →
      run_items clean (it :: rest) =
        ([⟨⟨none, none⟩, List.replicate 3 (dlCmd it.id), false, false, false, false, [],
          some (bailMsg it.name)⟩], some (bailMsg it.name))) := by
  refine ⟨?_, ?_, ?_⟩
  · intro clean id name fs att sa p
    exact process_item_commands_le clean id name fs att sa p
  · intro att k hk hx hmin
    rw [attempts_go_three]
    interval_cases k
    · simp [hx]
    · have h0 := hmin 0 (by omega)
      simp [hx, h0]
    · have h0 := hmin 0 (by omega)
      have h1 := hmin 1 (by omega)
      simp [hx, h0, h1]
  · intro clean it rest hfs hatt
    have htr : attempts_go it.att 3 0 = [false, false, false] := by
      rw [attempts_go_three]
      simp [hatt 0 (by omega), hatt 1 (by omega), hatt 2 (by omega)]
    have hpi : process_item clean it.id it.name it.fs it.att it.steamAfter it.pollEx =
        ⟨⟨none, none⟩, List.replicate 3 (dlCmd it.id), false, false, false, false, [],
          some (bailMsg it.name)⟩ := by
      rw [hfs]
      simp [process_item, pi_steam, pi_download, htr]
    simp [run_items, hpi]

theorem download_retry_witness :
    run_items false [⟨5, "M".data, ⟨none, none⟩, fun _ => false, none, fun _ => false⟩] =
      ([⟨⟨none, none⟩, List.replicate 3 (dlCmd 5), false, false, false, false, [],
        some (bailMsg "M".data)⟩], some (bailMsg "M".data)) :=
  download_retry_spec.2.2 false ⟨5, "M".data, ⟨none, none⟩, fun _ => false, none, fun _ => false⟩
    [] rfl (fun _ _ => rfl)

/-- Claim C7 (amended): for an item whose destination and staging directories
start absent and whose first download attempt succeeds, the run succeeds and
the destination directory `mods_dir/<id>` is created containing exactly one
entry: a directory named `<id>` — the staging directory itself copied inside
it by `fs_extra::copy_items` — which holds the staged contents. -/
theorem download_and_place (id : Int) (name : List Char) (att p : Nat → Bool) (se : Entries)
    (h : att 0 = true) :
    process_item false id name ⟨none, none⟩ att (some se) p =
      ⟨⟨some [(intChars id, FsNode.dir se)], some se⟩, [dlCmd id], false, false, true, true,
        poll_events p, none⟩
  ∧ run_items false [⟨id, name, ⟨none, none⟩, att, some se, p⟩] =
      ([⟨⟨some [(intChars id, FsNode.dir se)], some se⟩, [dlCmd id], false, false, true, true,
        poll_events p, none⟩], none) := by
  have htr : attempts_go att 3 0 = [true] := by
    rw [attempts_go_three]
    simp [h]
  have h1 : process_item false id name ⟨none, none⟩ att (some se) p =
      ⟨⟨some [(intChars id, FsNode.dir se)], some se⟩, [dlCmd id], false, false, true, true,
        poll_events p, none⟩ := by
    simp [process_item, pi_steam, pi_download, htr, copyInto]
  exact ⟨h1, by simp [run_items, h1]⟩

theorem download_and_place_witness :
    process_item false 7 "N".data ⟨none, none⟩ (fun _ => true) (some [("f".data, FsNode.file)])
      (fun _ => false) =
    ⟨⟨some [(intChars 7, FsNode.dir [("f".data, FsNode.file)])], some [("f".data, FsNode.file)]⟩,
      [dlCmd 7], false, false, true, true, poll_events (fun _ => false), none⟩ :=
  (download_and_place 7 "N".data (fun _ => true) (fun _ => false) [("f".data, FsNode.file)] rfl).1

/-- Claim C7 counterexample: with staging contents `[About]` for item 123, the
destination directory's entries end up being the single directory named `123`
(the copied staging directory), not the staged entries themselves. -/
theorem download_and_place_cex :
    ((process_item false 123 "Cool Mod".data ⟨none, none⟩ (fun _ => true)
        (some [("About".data, FsNode.file)]) (fun _ => false)).fs.modDir.map
      (fun es => es.map Prod.fst)) = some [intChars 123]
  ∧ (process_item false 123 "Cool Mod".data ⟨none, none⟩ (fun _ => true)
      (some [("About".data, FsNode.file)]) (fun _ => false)).failed = none
  ∧ intChars 123 ≠ "About".data
  ∧ (some [intChars 123] : Option (List (List Char))) ≠ some ["About".data] :=
  ⟨rfl, rfl, by decide, by decide⟩

theorem consHead_ne_nil (c : Char) (l : List (List Char)) : consHead c l ≠ [] := by
  cases l <;> simp [consHead]

theorem consHead_length (c : Char) (l : List (List Char)) (h : l ≠ []) :
    (consHead c l).length = l.length := by
  cases l with
  | nil => exact absurd rfl h
  | cons hd tl => simp [consHead]

theorem splitChar_ne_nil (sep : Char) : ∀ l, splitChar sep l ≠ [] := by
  intro l
  induction l with
  | nil => simp [splitChar]
  | cons c t ih =>
    by_cases h : c = sep
    · simp [splitChar, h]
    · simp only [splitChar, if_neg h]
      exact consHead_ne_nil c _

theorem splitChar_no_sep (sep : Char) : ∀ l x, x ∈ splitChar sep l → ∀ c ∈ x, c ≠ sep := by
  intro l
  induction l with
  | nil =>
    intro x hx c hc
    simp [splitChar] at hx
    subst hx
    simp at hc
  | cons a t ih =>
    intro x hx c hc
    by_cases h : a = sep
    · rw [splitChar, if_pos h] at hx
      rcases List.mem_cons.mp hx with rfl | hx
      · simp at hc
      · exact ih x hx c hc
    · rw [splitChar, if_neg h] at hx
      cases hsp : splitChar sep t with
      | nil => exact absurd hsp (splitChar_ne_nil sep t)
      | cons hd tl =>
        rw [hsp, consHead] at hx
        rcases List.mem_cons.mp hx with rfl | hx
        · rcases List.mem_cons.mp hc with rfl | hc
          · exact h
          · exact ih hd (by rw [hsp]; simp) c hc
        · exact ih x (by rw [hsp]; simp [hx]) c hc

theorem splitChar_single (sep : Char) : ∀ l, (∀ c ∈ l, c ≠ sep) → splitChar sep l = [l] := by
  intro l
  induction l with
  | nil => intro _; rfl
  | cons a t ih =>
    intro h
    have ha : a ≠ sep := h a (by simp)
    rw [splitChar, if_neg ha, ih (fun c hc => h c (by simp [hc]))]
    rfl

theorem splitChar_append_sep (sep : Char) : ∀ u n, (∀ c ∈ u, c ≠ sep) →
    splitChar sep (u ++ sep :: n) = u :: splitChar sep n := by
  intro u
  induction u with
  | nil =>
    intro n _
    simp [splitChar]
  | cons a us ih =>
    intro n h
    have ha : a ≠ sep := h a (by simp)
    rw [List.cons_append, splitChar, if_neg ha, ih n (fun c hc => h c (by simp [hc]))]
    rfl

theorem firstTok_no_space (row : List Char) : ∀ c ∈ firstTok row, c ≠ ' ' := by
  intro c hc
  cases hsp : splitChar ' ' row with
  | nil => exact absurd hsp (splitChar_ne_nil ' ' row)
  | cons hd tl =>
    have he : firstTok row = hd := by simp [firstTok, hsp]
    exact splitChar_no_sep ' ' row hd (by rw [hsp]; simp) c (he ▸ hc)

/-- Claim C8: for a manifest line whose identifier extracts successfully,
reformatting the reference token and display name back into a line and
extracting again yields the same identifier. -/
theorem manifest_id_roundtrip (row : List Char) (id : Int) (h : rowIdOf row = some id) :
    rowIdOf (formatLine (firstTok row) (restName row)) = some id := by
  have hft : firstTok (formatLine (firstTok row) (restName row)) = firstTok row := by
    rw [formatLine, firstTok,
      splitChar_append_sep ' ' (firstTok row) (restName row) (firstTok_no_space row)]
    rfl
  rw [rowIdOf, hft]
  exact h

theorem manifest_id_roundtrip_witness :
    rowIdOf (formatLine (firstTok "http://x?id=123 Cool Mod".data)
      (restName "http://x?id=123 Cool Mod".data)) = some 123 :=
  manifest_id_roundtrip "http://x?id=123 Cool Mod".data 123 (by decide)

/-- Claim C10: a manifest line that is a single token (no spaces) containing
`?id=<digits>` is accepted: it yields an item with the parsed identifier and
an empty display name. -/
theorem single_token_line (url : List Char) (id : Int)
    (h1 : ∀ c ∈ url, c ≠ ' ') (h2 : idFromUrl url = some id) :
    parse_row url = RowOutcome.ok ⟨[], id, url⟩
  ∧ load_mods [url] = LoadOutcome.ok [⟨[], id, url⟩] := by
  have hs : splitChar ' ' url = [url] := splitChar_single ' ' url h1
  have hft : firstTok url = url := by simp [firstTok, hs]
  have hrn : restName url = [] := by simp [restName, hs, List.intercalate]
  have hpr : parse_row url = RowOutcome.ok ⟨[], id, url⟩ := by
    rcases hm : (splitIdMarker url)[1]? with _ | s
    · rw [idFromUrl, hm] at h2
      exact absurd h2 (by simp)
    · rw [idFromUrl, hm] at h2
      replace h2 : parse_i64 s = some id := h2
      rw [parse_row, hft, hm]
      show (match parse_i64 s with
        | none => RowOutcome.err
        | some i => RowOutcome.ok ⟨restName url, i, url⟩) = RowOutcome.ok ⟨[], id, url⟩
      rw [h2, hrn]
  exact ⟨hpr, by simp [load_mods, hpr]⟩

theorem single_token_line_witness :
    load_mods ["http://x?id=123".data] = LoadOutcome.ok [⟨[], 123, "http://x?id=123".data⟩] :=
  (single_token_line "http://x?id=123".data 123 (by decide) (by decide)).2

theorem splitIdAux_zero (s : List Char) : splitIdAux 0 s = [s] := rfl

theorem splitIdAux_succ (f : Nat) (s : List Char) :
    splitIdAux (f + 1) s =
      if startsWith idMarker s then [] :: splitIdAux f (s.drop 4)
      else
        match s with
        | [] => [[]]
        | c :: t => consHead c (splitIdAux f t) := rfl

theorem splitIdAux_ne_nil : ∀ f s, splitIdAux f s ≠ [] := by
  intro f s
  cases f with
  | zero => rw [splitIdAux_zero]; simp
  | succ f =>
    rw [splitIdAux_succ]
    by_cases h : startsWith idMarker s
    · simp [h]
    · rw [if_neg (by simp [h])]
      cases s with
      | nil => simp
      | cons c t => exact consHead_ne_nil c _

theorem marker_occurs_aux : ∀ f s, s.length < f →
    (2 ≤ (splitIdAux f s).length ↔ ∃ u v, s = u ++ idMarker ++ v) := by
  intro f
  induction f with
  | zero => intro s h; omega
  | succ f ih =>
    intro s hlen
    by_cases hp : startsWith idMarker s = true
    · constructor
      · intro _
        obtain ⟨t, ht⟩ := (startsWith_exists idMarker s).mp hp
        exact ⟨[], t, by simp [ht]⟩
      · intro _
        rw [splitIdAux_succ, if_pos hp]
        have := List.length_pos.mpr (splitIdAux_ne_nil f (s.drop 4))
        simp only [List.length_cons]
        omega
    · cases s with
      | nil =>
        rw [splitIdAux_succ, if_neg hp]
        constructor
        · intro h2
          simp at h2
        · rintro ⟨u, v, huv⟩
          exfalso
          cases u <;> simp [idMarker] at huv
      | cons c t =>
        have hlt : t.length < f := by
          simp only [List.length_cons] at hlen
          omega
        have e : splitIdAux (f + 1) (c :: t) = consHead c (splitIdAux f t) := by
          rw [splitIdAux_succ, if_neg hp]
        rw [e, consHead_length c _ (splitIdAux_ne_nil f t), ih t hlt]
        constructor
        · rintro ⟨u, v, huv⟩
          exact ⟨c :: u, v, by simp [huv]⟩
        · rintro ⟨u, v, huv⟩
          cases u with
          | nil =>
            exfalso
            simp only [List.nil_append] at huv
            exact hp ((startsWith_exists idMarker (c :: t)).mpr ⟨v, huv⟩)
          | cons d us =>
            simp only [List.cons_append, List.cons.injEq] at huv
            exact ⟨us, v, huv.2⟩

theorem marker_occurs (s : List Char) :
    2 ≤ (splitIdMarker s).length ↔ ∃ u v, s = u ++ idMarker ++ v :=
  marker_occurs_aux (s.length + 1) s (by omega)

theorem parse_row_panic (row : List Char) (h : ¬ ∃ u v, firstTok row = u ++ idMarker ++ v) :
    parse_row row = RowOutcome.panic := by
  have hlen : (splitIdMarker (firstTok row)).length < 2 := by
    by_contra hc
    exact h ((marker_occurs (firstTok row)).mp (by omega))
  have h1 : (splitIdMarker (firstTok row))[1]? = none := by
    rw [List.getElem?_eq_none_iff]
    omega
  rw [parse_row, h1]

theorem parse_row_err (row : List Char) (s : List Char)
    (hs : (splitIdMarker (firstTok row))[1]? = some s) (hp : parse_i64 s = none) :
    parse_row row = RowOutcome.err := by
  rw [parse_row, hs]
  show (match parse_i64 s with
    | none => RowOutcome.err
    | some i => RowOutcome.ok ⟨restName row, i, firstTok row⟩) = RowOutcome.err
  rw [hp]

theorem parse_row_ok (row : List Char) (id : Int) (h : rowIdOf row = some id) :
    parse_row row = RowOutcome.ok ⟨restName row, id, firstTok row⟩ := by
  rcases hm : (splitIdMarker (firstTok row))[1]? with _ | s
  · rw [rowIdOf, idFromUrl, hm] at h
    exact absurd h (by simp)
  · rw [rowIdOf, idFromUrl, hm] at h
    replace h : parse_i64 s = some id := h
    rw [parse_row, hm]
    show (match parse_i64 s with
      | none => RowOutcome.err
      | some i => RowOutcome.ok ⟨restName row, i, firstTok row⟩) =
        RowOutcome.ok ⟨restName row, id, firstTok row⟩
    rw [h]

theorem parse_row_isSome (row : List Char) (h : (rowIdOf row).isSome) :
    parse_row row = RowOutcome.ok (mkMod row) := by
  obtain ⟨id, hid⟩ := Option.isSome_iff_exists.mp h
  rw [mkMod, hid]
  simpa using parse_row_ok row id hid

theorem load_mods_all_ok : ∀ rows, (∀ r ∈ rows, (rowIdOf r).isSome) →
    load_mods rows = LoadOutcome.ok (rows.map mkMod) := by
  intro rows
  induction rows with
  | nil => intro _; rfl
  | cons r rs ih =>
    intro h
    rw [load_mods, parse_row_isSome r (h r (by simp)), ih (fun x hx => h x (by simp [hx]))]
    simp

theorem load_mods_prefix_panic : ∀ good bad more, (∀ r ∈ good, (rowIdOf r).isSome) →
    parse_row bad = RowOutcome.panic →
    load_mods (good ++ bad :: more) = LoadOutcome.panic := by
  intro good
  induction good with
  | nil =>
    intro bad more _ hb
    rw [List.nil_append, load_mods, hb]
  | cons g gs ih =>
    intro bad more h hb
    rw [List.cons_append, load_mods, parse_row_isSome g (h g (by simp)),
      ih bad more (fun x hx => h x (by simp [hx])) hb]

theorem load_mods_prefix_err : ∀ good bad more, (∀ r ∈ good, (rowIdOf r).isSome) →
    parse_row bad = RowOutcome.err →
    load_mods (good ++ bad :: more) = LoadOutcome.err := by
  intro good
  induction good with
  | nil =>
    intro bad more _ hb
    rw [List.nil_append, load_mods, hb]
  | cons g gs ih =>
    intro bad more h hb
    rw [List.cons_append, load_mods, parse_row_isSome g (h g (by simp)),
      ih bad more (fun x hx => h x (by simp [hx])) hb]

/-- Claim C6 (amended): the loader processes lines in order; the first line
whose reference token lacks the `?id=` marker makes it panic (a crash, the
`.expect("Mod Id")`), the first line whose identifier substring fails to parse
as an `i64` makes it return an error, and on a file of well-formed lines it
returns the items in file order, each built from the line's first
space-delimited token as reference and the remaining tokens rejoined with
single spaces as name. (Every line splits; a single token is accepted with an
empty name.) -/
theorem manifest_loader_spec (good : List (List Char)) (bad : List Char)
    (more : List (List Char)) (hgood : ∀ r ∈ good, (rowIdOf r).isSome) :
    ((¬ ∃ u v, firstTok bad = u ++ idMarker ++ v) →
      load_mods (good ++ bad :: more) = LoadOutcome.panic)
  ∧ (∀ s, (splitIdMarker (firstTok bad))[1]? = some s → parse_i64 s = none →
      load_mods (good ++ bad :: more) = LoadOutcome.err)
  ∧ ((∀ r ∈ good ++ bad :: more, (rowIdOf r).isSome) →
      load_mods (good ++ bad :: more) = LoadOutcome.ok ((good ++ bad :: more).map mkMod)) := by
  refine ⟨?_, ?_, ?_⟩
  · intro h
    exact load_mods_prefix_panic good bad more hgood (parse_row_panic bad h)
  · intro s hs hp
    exact load_mods_prefix_err good bad more hgood (parse_row_err bad s hs hp)
  · intro h
    exact load_mods_all_ok _ h

theorem manifest_loader_witness :
    load_mods ["a?id=1 X".data, "b?id=2 Y".data] =
      LoadOutcome.ok [⟨"X".data, 1, "a?id=1".data⟩, ⟨"Y".data, 2, "b?id=2".data⟩] :=
  (manifest_loader_spec ["a?id=1 X".data] "b?id=2 Y".data [] (by decide)).2.2 (by decide)

/-- Claim C6 counterexample: on a line whose reference token has no `?id=`
marker the loader panics (the `.expect("Mod Id")` crash) instead of returning
an error. -/
theorem manifest_loader_cex :
    load_mods ["http://x Cool".data] = LoadOutcome.panic
  ∧ LoadOutcome.panic ≠ LoadOutcome.err :=
  ⟨by decide, by decide⟩

end RimMods
